import Mathlib

/-!
Shallow embedding of the Trade Tracker application (src/app.py and
src/app-2.py): the ledger data model, the sheet loading pipeline
(process_data, get_initial_data, get_full_data), the add-trade handlers,
the dashboard and historical-overview aggregations, and the persistence
path (update_gsheet).

Modelling conventions:
* money (the `P/L` and `Account Value` cells, parsed by `pd.to_numeric`)
  is modelled as exact rationals;
* dates are year/month/day triples produced by a faithful model of
  `pd.to_datetime(..., format="%m/%d/%y", errors="coerce")`
  (strptime semantics: 1-2 digit month in 1..12, 1-2 digit day valid for
  the month including leap years, exactly 2 digit year mapped to
  1969..2068);
* `pandas.sort_values` with its default kind (quicksort) guarantees only
  a permutation of the rows ordered by the key: the kernel is unstable
  for longer frames, so the relative order of equal dates is not a
  program guarantee.  The embedding uses a deterministic stable sort as
  an executable stand-in; every universally quantified statement drawn
  from it below is kernel-independent (a permutation, sortedness, a
  maximal element at the head), and the concrete counterexamples use
  frames of at most two rows, where the actual kernel degenerates to a
  stable insertion sort;
* a spreadsheet is a list of rows (lists of cell strings); the record
  dictionaries built by `dict(zip(header, row))` are association lists
  where a duplicated key is resolved to the last pair, as in Python;
* an exception raised inside `process_data` (a required numeric column
  missing from the frame) is modelled by `Option`: `none` is the raised
  exception, which the callers catch and turn into an empty frame.
-/

namespace TradeTracker

attribute [local semireducible] Rat.add Rat.mul Rat.inv Rat.sub

set_option maxRecDepth 4000

/-- Calendar date as it exists after `pd.to_datetime(..., format="%m/%d/%y")`. -/
structure TDate where
  year : Nat
  month : Nat
  day : Nat
deriving DecidableEq, Repr

/-- Chronological sort key: year/month/day collapsed lexicographically into
one natural number.  The date parser only produces months 1..12 and days
1..31, so on parsed dates this key orders exactly as pandas datetimes do. -/
def TDate.key (d : TDate) : Nat :=
  d.year * 10000 + d.month * 100 + d.day

/-- One row of the application DataFrame after coercion: the columns the
program actually reads are `Date`, `Position`, `P/L` and `Account Value`. -/
structure Trade where
  date : TDate
  pos : String
  pl : Rat
  av : Rat
deriving DecidableEq, Repr

/-! ### Cell parsing: `pd.to_datetime(format="%m/%d/%y")` and `pd.to_numeric` -/

/-- Value of an all-digit character run, `none` when empty or not all digits.
Models matching one numeric field of a strptime format. -/
def digitsVal (cs : List Char) : Option Nat :=
  if cs = [] then none
  else if cs.all (fun c => c.isDigit) then
    some (cs.foldl (fun n c => n * 10 + (c.toNat - 48)) 0)
  else none

/-- Split a character list at a separator, Python `str.split(sep)` style:
the empty string yields one empty group. -/
def splitOnChar (sep : Char) : List Char → List (List Char)
  | [] => [[]]
  | c :: rest =>
    if c = sep then [] :: splitOnChar sep rest
    else
      match splitOnChar sep rest with
      | [] => [[c]]
      | g :: gs => (c :: g) :: gs

/-- strptime `%m`: one or two digits, value 1..12. -/
def parseMonthField (cs : List Char) : Option Nat :=
  match digitsVal cs with
  | some m => if cs.length ≤ 2 ∧ 1 ≤ m ∧ m ≤ 12 then some m else none
  | none => none

/-- strptime `%d`: one or two digits, value 1..31 (month-specific bound is
checked by the datetime constructor, modelled in `parseDate`). -/
def parseDayField (cs : List Char) : Option Nat :=
  match digitsVal cs with
  | some d => if cs.length ≤ 2 ∧ 1 ≤ d ∧ d ≤ 31 then some d else none
  | none => none

/-- strptime `%y`: exactly two digits; 00-68 maps to 2000-2068 and 69-99 to
1969-1999, as in CPython. -/
def parseYearField (cs : List Char) : Option Nat :=
  match digitsVal cs with
  | some yy => if cs.length = 2 then some (if yy ≤ 68 then 2000 + yy else 1900 + yy) else none
  | none => none

def isLeap (y : Nat) : Bool :=
  y % 4 = 0 ∧ (y % 100 ≠ 0 ∨ y % 400 = 0)

def daysInMonth (y m : Nat) : Nat :=
  if m = 2 then (if isLeap y then 29 else 28)
  else if m = 4 ∨ m = 6 ∨ m = 9 ∨ m = 11 then 30
  else 31

/-- Model of `pd.to_datetime(cell, format="%m/%d/%y", errors="coerce")` on a
single cell: `none` is `NaT`, which `dropna` then removes. -/
def parseDate (s : String) : Option TDate :=
  match splitOnChar '/' s.data with
  | [ms, ds, ys] =>
    match parseMonthField ms, parseDayField ds, parseYearField ys with
    | some m, some d, some y => if d ≤ daysInMonth y m then some ⟨y, m, d⟩ else none
    | _, _, _ => none
  | _ => none

/-- Unsigned decimal literal (digits, optional point, digits) to a rational. -/
def parseUnsigned (cs : List Char) : Option Rat :=
  match splitOnChar '.' cs with
  | [ip] => (digitsVal ip).map (fun n => (n : Rat))
  | [ip, fp] =>
    if ip = [] ∧ fp = [] then none
    else if (ip = [] ∨ (digitsVal ip).isSome) ∧ (fp = [] ∨ (digitsVal fp).isSome) then
      some (((digitsVal ip).getD 0 : Rat) + ((digitsVal fp).getD 0 : Rat) / (10 : Rat) ^ fp.length)
    else none
  | _ => none

/-- Whitespace skipped by the pandas numeric converter around a cell. -/
def isSpaceChar (c : Char) : Bool :=
  c = ' ' ∨ c = '\t' ∨ c = '\n' ∨ c = '\r'

/-- Strip surrounding whitespace from a cell. -/
def stripChars (cs : List Char) : List Char :=
  ((cs.dropWhile isSpaceChar).reverse.dropWhile isSpaceChar).reverse

/-- Split at the first `e`/`E`, separating mantissa from exponent field. -/
def splitExp : List Char → List Char × Option (List Char)
  | [] => ([], none)
  | c :: rest =>
    if c = 'e' ∨ c = 'E' then ([], some rest)
    else
      match splitExp rest with
      | (m, ex) => (c :: m, ex)

/-- Optionally signed all-digit exponent field of scientific notation. -/
def parseExponent (cs : List Char) : Option Int :=
  match cs with
  | [] => none
  | c :: rest =>
    if c = '-' then (digitsVal rest).map (fun n => -(n : Int))
    else if c = '+' then (digitsVal rest).map (fun n => (n : Int))
    else (digitsVal cs).map (fun n => (n : Int))

/-- Exact power of ten for either exponent sign. -/
def powTen (e : Int) : Rat :=
  match e with
  | Int.ofNat n => (10 : Rat) ^ n
  | Int.negSucc n => 1 / (10 : Rat) ^ (n + 1)

/-- Unsigned numeric literal, decimal or scientific (`1e3`, `1.5E+16`). -/
def parseUnsignedSci (cs : List Char) : Option Rat :=
  match splitExp cs with
  | (m, none) => parseUnsigned m
  | (m, some ex) =>
    match parseUnsigned m, parseExponent ex with
    | some q, some e => some (q * powTen e)
    | _, _ => none

/-- Signed numeric literal. -/
def parseSigned (cs : List Char) : Option Rat :=
  match cs with
  | [] => none
  | c :: rest =>
    if c = '-' then (parseUnsignedSci rest).map (fun q => -q)
    else if c = '+' then parseUnsignedSci rest
    else parseUnsignedSci (c :: rest)

/-- Model of `pd.to_numeric(cell, errors="coerce")` on a single cell that
converts to a FINITE number: surrounding whitespace, an optional sign, and
a decimal or scientific literal.  `none` covers every cell pandas coerces
to `NaN` (which `fillna(0)` then replaces by `0`), and additionally the
infinity forms, which pandas converts to non-finite floats that no
rational can stand for; those are recognised separately by `isInfForm`
and excluded from the malformed-cell statements below. -/
def parseNumeric (s : String) : Option Rat :=
  parseSigned (stripChars s.data)

/-- Lower-cased characters, for case-insensitive keyword matching. -/
def lowerAll (cs : List Char) : List Char := cs.map Char.toLower

/-- An infinity cell: optional sign then `inf`/`infinity` in any case.
`pd.to_numeric` converts these to non-finite floats, NOT to `NaN`, so they
are neither "non-numeric" in the claim's sense nor representable here. -/
def isInfForm (s : String) : Bool :=
  match stripChars s.data with
  | [] => false
  | c :: rest =>
    let body := if c = '-' ∨ c = '+' then rest else c :: rest
    lowerAll body = ['i', 'n', 'f'] ∨ lowerAll body = ['i', 'n', 'f', 'i', 'n', 'i', 't', 'y']

/-- A cell the program coerces to `NaN` and then to `0`: the cell is
absent, or it is neither a finite numeric literal nor an infinity form -
the claim's "non-numeric or empty". -/
def cellNotNumeric (c : Option String) : Bool :=
  match c with
  | none => true
  | some s => !(parseNumeric s).isSome && !(isInfForm s)

/-! ### Records: `dict(zip(header, row))` -/

/-- A record as built by `dict(zip(header, row))`. -/
abbrev RecT := List (String × String)

/-- `dict(zip(header, row))`: `zip` truncates to the shorter list. -/
def dictOf (hd row : List String) : RecT := hd.zip row

/-- Python dict lookup on the association list: a duplicated key was
overwritten by the later pair, so the last binding wins.  `none` models a
key absent from the record, which pandas renders as `NaN` in that cell. -/
def dget (r : RecT) (k : String) : Option String :=
  (r.reverse.find? (fun p => p.1 == k)).map Prod.snd

/-- `to_numeric(...).fillna(0)` on one cell of a record. -/
def numOr0 (c : Option String) : Rat := (c.bind parseNumeric).getD 0

/-- One row of `process_data` after the `Date` coercion and `dropna`:
`none` when the row is dropped (its date is missing or unparseable). -/
def parseRow (r : RecT) : Option Trade :=
  match (dget r "Date").bind parseDate with
  | none => none
  | some d =>
    some { date := d, pos := (dget r "Position").getD "",
           pl := numOr0 (dget r "P/L"), av := numOr0 (dget r "Account Value") }

/-! ### Sorting: `df.sort_values(by="Date")` -/

/-- Descending date order, the relation of
`sort_values(by="Date", ascending=False)`. -/
def rdesc (a b : Trade) : Prop := b.date.key ≤ a.date.key

/-- Ascending date order, the relation of
`sort_values(by="Date", ascending=True)` used by `update_gsheet`. -/
def rasc (a b : Trade) : Prop := a.date.key ≤ b.date.key

instance : DecidableRel rdesc := fun _ _ => Nat.decLe _ _

instance : DecidableRel rasc := fun _ _ => Nat.decLe _ _

instance : IsTotal Trade rdesc :=
  ⟨fun a b => by unfold rdesc; exact Nat.le_total _ _⟩

instance : IsTrans Trade rdesc :=
  ⟨fun a b c hab hbc => by unfold rdesc at *; exact Nat.le_trans hbc hab⟩

instance : IsTotal Trade rasc :=
  ⟨fun a b => by unfold rasc; exact Nat.le_total _ _⟩

instance : IsTrans Trade rasc :=
  ⟨fun a b c hab hbc => by unfold rasc at *; exact Nat.le_trans hab hbc⟩

/-- `df.sort_values(by="Date", ascending=False)`.  The program's default
quicksort kernel guarantees only the descending date order, not the
relative order of equal dates; this definition is a deterministic stable
stand-in, and the claim theorems below draw only kernel-independent
consequences from it. -/
def sortDesc (l : List Trade) : List Trade := List.insertionSort rdesc l

/-- `df.sort_values(by="Date", ascending=True)` in `update_gsheet`; the
same deterministic stand-in, used only for permutation and sortedness
consequences. -/
def sortAsc (l : List Trade) : List Trade := List.insertionSort rasc l

/-! ### `process_data` and the two loaders -/

/-- Core of `process_data` on the record dictionaries.  `none` models the
exception raised by `df["P/L"]` / `df["Account Value"]` when that column is
absent from the frame (the loaders catch it and return an empty frame);
the explicit `Date`-column check returns an empty frame directly. -/
def processDataE (recs : List RecT) : Option (List Trade) :=
  if recs.isEmpty then some []
  else if recs.any (fun r => (dget r "Date").isSome) then
    if recs.any (fun r => (dget r "P/L").isSome) then
      if recs.any (fun r => (dget r "Account Value").isSome) then
        some (sortDesc (recs.filterMap parseRow))
      else none
    else none
  else some []

/-- The persisted schema header row of the Trade Tracker Data sheet. -/
def stdHeader : List String :=
  ["Date", "Position", "Type", "P/L", "Notes", "Account Value"]

/-- `get_full_data`: all rows below the header, zipped against the header
without padding, then `process_data`; any exception yields an empty frame. -/
def getFullData (vals : List (List String)) : List Trade :=
  if vals.length ≤ 1 then []
  else
    match vals with
    | [] => []
    | hd :: rows => (processDataE (rows.map (fun r => dictOf hd r))).getD []

/-- The row padding loop of `get_initial_data`: extend with empty cells up
to the header length. -/
def pad (row : List String) (n : Nat) : List String :=
  row ++ List.replicate (n - row.length) ""

/-- Python `l[-n:]`. -/
def lastN (n : Nat) (l : List (List String)) : List (List String) :=
  l.drop (l.length - n)

/-- `get_initial_data`: the last 200 rows of the sheet (header row included
when the sheet is short), padded and zipped against the header, then
`process_data`. -/
def getInitialData (vals : List (List String)) : List Trade :=
  if vals.length ≤ 1 then []
  else
    match vals with
    | [] => []
    | hd :: _ => (processDataE ((lastN 200 vals).map (fun r => dictOf hd (pad r hd.length)))).getD []

/-! ### Add-trade handlers -/

/-- The `Add Trade` handler of src/app.py: the new account value is the
last stored row's `Account Value` (`iloc[-1]`, entry order) plus the
profit/loss, or the standalone `value` input plus the profit/loss for an
empty ledger; the new trade is appended after the last entry. -/
def appAddTrade (L : List Trade) (d : TDate) (p : String) (value pl : Rat) : List Trade :=
  L ++ [{ date := d, pos := p, pl := pl,
          av := (match L.getLast? with | some t => t.av | none => value) + pl }]

/-- The `trade_form` submit handler of src/app-2.py: the base value is
`trades_df["Account Value"].iloc[0]` of the session frame - the first row
of the date-descending-sorted loaded ledger - or `0` when it is empty. -/
def app2SubmitValue (L : List Trade) (pl : Rat) : Rat :=
  (match (sortDesc L).head? with | some t => t.av | none => 0) + pl

/-! ### Dashboard and historical-overview aggregation -/

def byYear (y : Nat) (t : Trade) : Bool := t.date.year == y

def byMonth (m : Nat) (t : Trade) : Bool := t.date.month == m

/-- `df["P/L"].sum()`. -/
def sumPL (l : List Trade) : Rat := (l.map (fun t => t.pl)).sum

/-- The dashboard's `overall_pl`: `dashboard_df["P/L"].sum()` over the
whole session frame, the All-window aggregate total. -/
def overallPL (S : List Trade) : Rat := (S.map (fun t => t.pl)).sum

/-- The dashboard's `last_month` / `last_year` computation: `iloc[0]` of the
filtered view of the (date-descending) session frame, falling back to
`iloc[0]` of the whole frame when the filtered view is empty.  `none` only
when the whole frame is empty (the dashboard branch does not run then). -/
def dashLastValue (S : List Trade) (p : Trade → Bool) : Option Rat :=
  match S.filter p with
  | t :: _ => some t.av
  | [] => S.head?.map (fun t => t.av)

/-- The Historical Overview monthly summary: filter the frame to the chosen
year, group by month, and left-merge onto the constant month column 1..12
with `fillna(0)`; each entry is (month, trade count, total P/L). -/
def monthlyBreakdown (L : List Trade) (y : Nat) : List (Nat × Nat × Rat) :=
  (List.range 12).map (fun i =>
    (i + 1, ((L.filter (byYear y)).filter (byMonth (i + 1))).length,
      sumPL ((L.filter (byYear y)).filter (byMonth (i + 1)))))

/-- First element of a list attaining the maximal date key: on equal keys
the earlier entry is kept.  This is the head of the stable descending sort. -/
def firstMax : List Trade → Option Trade
  | [] => none
  | t :: ts =>
    match firstMax ts with
    | none => some t
    | some m => if m.date.key ≤ t.date.key then some t else some m

/-- Modelled from the spec: the claim's reading of "chronologically-last
trade", with ties on equal dates broken so that the later entry wins.
Written from the spec's words for comparison with the code's behaviour. -/
def lastMaxSpec : List Trade → Option Trade
  | [] => none
  | t :: ts =>
    match lastMaxSpec ts with
    | none => some t
    | some m => if t.date.key ≤ m.date.key then some m else some t

/-- Modelled from the spec: `aggregate(L, w).last_account_value` as the
claim states it - the later-entry-wins chronologically-last trade of the
filtered set, or the all-time such value when the filtered set is empty. -/
def specLastValue (L : List Trade) (p : Trade → Bool) : Option Rat :=
  match lastMaxSpec (L.filter p) with
  | some t => some t.av
  | none => (lastMaxSpec L).map (fun t => t.av)

/-! ### Editing, saving, persistence -/

/-- An in-place edit of the profit/loss cell of the row at position `i` of
the session frame, as entered through `st.data_editor` and written back by
`st.session_state.trades_df.update(edited_chunk)`.  No other cell changes;
in particular the stored `Account Value` cells are untouched. -/
def setPL : List Trade → Nat → Rat → List Trade
  | [], _, _ => []
  | t :: ts, 0, x => { t with pl := x } :: ts
  | t :: ts, i + 1, x => t :: setPL ts i x

/-- The persistence step shared by Save Edits / Delete Selected:
`update_gsheet` writes `df.sort_values(by="Date", ascending=True)`, so the
newly stored entry order of the sheet is the date-ascending order. -/
def saveEditsPersist (S : List Trade) : List Trade := sortAsc S

/-- Balance Recurrence check from running value `v`: each trade's account
value must equal the previous account value plus its profit/loss. -/
def balanceFrom : Rat → List Trade → Bool
  | _, [] => true
  | v, t :: ts => decide (t.av = v + t.pl) && balanceFrom t.av ts

/-- Balance Recurrence of the spec with starting value 0. -/
def balanceOK (l : List Trade) : Bool := balanceFrom 0 l

/-- Modelled from the spec: helper of `recompute_all` carrying the running
value.  `recompute_all` has no implementation anywhere in the source files;
this follows the spec's words (Balance Recurrence, starting from `v`). -/
def recomputeFrom : Rat → List Trade → List Trade
  | _, [] => []
  | v, t :: ts => { t with av := v + t.pl } :: recomputeFrom (v + t.pl) ts

/-- Modelled from the spec: `recompute_all(ledger)` re-derives every
account value in entry order starting from 0.  Absent from the source;
written from the spec's words to state what the claim expects. -/
def recomputeAll (l : List Trade) : List Trade := recomputeFrom 0 l

/-! ### The backing sheet and `update_gsheet` -/

/-- A persisted sheet row: the schema header line or one trade line. -/
inductive SRow where
  | header : SRow
  | trade : Trade → SRow
deriving DecidableEq, Repr

/-- The three sheet mutations `update_gsheet` performs in order:
`sheet.clear()`, `sheet.append_row(header)`, `sheet.append_rows(rows)`
with the rows sorted by date ascending. -/
def gsheetSteps (df : List Trade) : List (List SRow → List SRow) :=
  [fun _ => [], fun s => s ++ [SRow.header],
   fun s => s ++ (sortAsc df).map SRow.trade]

/-- Run the mutation steps against the store with a failure budget: the
first `budget` steps succeed; if steps remain when the budget is exhausted,
the next API call raises and execution stops with the store as it is
(`update_gsheet` catches the exception and returns `False`). -/
def runSteps : List SRow → List (List SRow → List SRow) → Nat → List SRow × Bool
  | s, [], _ => (s, true)
  | s, _ :: _, 0 => (s, false)
  | s, op :: ops, k + 1 => runSteps (op s) ops k

/-- `update_gsheet(client, df)` against a store holding `prior`, with
`budget` successful API calls before a failure (3 or more: full success). -/
def updateGsheet (prior : List SRow) (df : List Trade) (budget : Nat) : List SRow × Bool :=
  runSteps prior (gsheetSteps df) budget

/-- Running account value of a ledger with seed `v`: the last trade's
account value, or `v` for the empty ledger (the shape of `iloc[-1]`). -/
def lastAV (v : Rat) : List Trade → Rat
  | [] => v
  | t :: ts => lastAV t.av ts

/-! ## Helper lemmas -/

theorem lastN_of_le {n : Nat} {l : List (List String)} (h : l.length ≤ n) :
    lastN n l = l := by
  unfold lastN
  have : l.length - n = 0 := by omega
  rw [this]
  rfl

theorem lastN_cons_of_le {n : Nat} (a : List String) {l : List (List String)}
    (h : n ≤ l.length) : lastN n (a :: l) = lastN n l := by
  unfold lastN
  have hc : (a :: l).length - n = (l.length - n) + 1 := by
    simp only [List.length_cons]
    omega
  rw [hc, List.drop_succ_cons]

theorem length_lastN_le (n : Nat) (l : List (List String)) :
    (lastN n l).length ≤ n := by
  unfold lastN
  rw [List.length_drop]
  omega

theorem length_sortDesc (l : List Trade) : (sortDesc l).length = l.length :=
  (List.perm_insertionSort rdesc l).length_eq

theorem mem_sortDesc {t : Trade} {l : List Trade} :
    t ∈ sortDesc l ↔ t ∈ l :=
  (List.perm_insertionSort rdesc l).mem_iff

/-! ## C8: atomicity of the full-ledger overwrite -/

/-- C8 (amended): the outcomes of `update_gsheet`.  On success the store
holds the schema header and every row of the new ledger (date-ascending);
on failure the store is the prior state only when the initial `clear`
itself failed, and otherwise is left empty or header-only - the overwrite
is not atomic on failure. -/
theorem c8_replace_all_outcomes (prior : List SRow) (df : List Trade) (budget : Nat) :
    ((updateGsheet prior df budget).2 = true →
      (updateGsheet prior df budget).1 = SRow.header :: (sortAsc df).map SRow.trade) ∧
    ((updateGsheet prior df budget).2 = false →
      (updateGsheet prior df budget).1 = prior ∨ (updateGsheet prior df budget).1 = [] ∨
        (updateGsheet prior df budget).1 = [SRow.header]) := by
  rcases budget with _ | _ | _ | k <;>
    simp [updateGsheet, gsheetSteps, runSteps]

/-- C8 witness: a successful run leaves header plus all rows. -/
theorem c8_replace_all_outcomes_witness :
    (updateGsheet [SRow.header] [⟨⟨2024, 2, 5⟩, "F", -200, 300⟩] 3).1 =
      SRow.header :: (sortAsc [⟨⟨2024, 2, 5⟩, "F", -200, 300⟩]).map SRow.trade :=
  (c8_replace_all_outcomes [SRow.header] [⟨⟨2024, 2, 5⟩, "F", -200, 300⟩] 3).1 (by decide)

/-- C8 counterexample: a failure after the header append leaves the store
holding the schema header (part of the new data) and not the prior state,
refuting "on failure it holds none of them, leaving the prior persisted
state unchanged". -/
theorem c8_not_atomic_counterexample :
    (updateGsheet [SRow.header, SRow.trade ⟨⟨2024, 1, 10⟩, "J", 500, 500⟩]
        [⟨⟨2024, 2, 5⟩, "F", -200, 300⟩] 2).2 = false ∧
    (updateGsheet [SRow.header, SRow.trade ⟨⟨2024, 1, 10⟩, "J", 500, 500⟩]
        [⟨⟨2024, 2, 5⟩, "F", -200, 300⟩] 2).1 = [SRow.header] ∧
    [SRow.header] ≠ [SRow.header, SRow.trade ⟨⟨2024, 1, 10⟩, "J", 500, 500⟩] := by
  refine ⟨rfl, rfl, by decide⟩

/-! ## C9: malformed numeric cells are coerced to 0, never rejected -/

theorem numOr0_eq_zero_of_notNumeric (c : Option String)
    (h : cellNotNumeric c = true) : numOr0 c = 0 := by
  unfold numOr0
  cases c with
  | none => rfl
  | some s =>
    unfold cellNotNumeric at h
    simp only [Bool.and_eq_true, Bool.not_eq_true'] at h
    show (parseNumeric s).getD 0 = 0
    cases hp : parseNumeric s with
    | none => rfl
    | some q =>
      rw [hp] at h
      exact absurd h.1 (by simp)

/-- C9: a persisted row whose `P/L` or `Account Value` cell is non-numeric
or empty is not rejected and raises no error: provided its date parses,
the row is loaded as a trade whose fields are the `to_numeric(...).fillna(0)`
coercions of its cells, and whichever of the two cells is non-numeric or
empty is carried as `0`; `process_data` succeeds on the whole record set. -/
theorem c9_malformed_numeric_coerced (recs : List RecT) (r : RecT) (d : TDate)
    (hmem : r ∈ recs)
    (hdate : (dget r "Date").bind parseDate = some d)
    (hplcol : (recs.any fun q => (dget q "P/L").isSome) = true)
    (havcol : (recs.any fun q => (dget q "Account Value").isSome) = true) :
    ∃ l, processDataE recs = some l ∧
      ∃ t ∈ l, parseRow r = some t ∧ t.date = d ∧
        t.pl = numOr0 (dget r "P/L") ∧ t.av = numOr0 (dget r "Account Value") ∧
        (cellNotNumeric (dget r "P/L") = true → t.pl = 0) ∧
        (cellNotNumeric (dget r "Account Value") = true → t.av = 0) := by
  have hne : recs ≠ [] := List.ne_nil_of_mem hmem
  have hDcol : (recs.any fun q => (dget q "Date").isSome) = true := by
    refine List.any_eq_true.mpr ⟨r, hmem, ?_⟩
    cases hd : dget r "Date" with
    | none => rw [hd] at hdate; simp at hdate
    | some s => rfl
  have ht : parseRow r =
      some ⟨d, (dget r "Position").getD "", numOr0 (dget r "P/L"),
        numOr0 (dget r "Account Value")⟩ := by
    unfold parseRow
    rw [hdate]
  refine ⟨sortDesc (recs.filterMap parseRow), ?_, ?_⟩
  · unfold processDataE
    rw [if_neg (by simp [hne]), if_pos hDcol, if_pos hplcol, if_pos havcol]
  · exact ⟨_, mem_sortDesc.mpr (List.mem_filterMap.mpr ⟨r, hmem, ht⟩), ht, rfl, rfl, rfl,
      fun h => numOr0_eq_zero_of_notNumeric _ h, fun h => numOr0_eq_zero_of_notNumeric _ h⟩

/-- C9 witness at a concrete record whose `P/L` cell is `"garbage"` and
whose `Account Value` cell is `"oops"`: the row loads with both fields 0. -/
theorem c9_malformed_numeric_coerced_witness :
    ∃ l, processDataE [dictOf stdHeader ["01/10/24", "X", "Stock", "garbage", "", "oops"]] = some l ∧
      ∃ t ∈ l, parseRow (dictOf stdHeader ["01/10/24", "X", "Stock", "garbage", "", "oops"]) = some t ∧
        t.date = ⟨2024, 1, 10⟩ ∧ t.pl = 0 ∧ t.av = 0 := by
  obtain ⟨l, hl, t, htl, hpr, hd, hpl, hav, hplz, havz⟩ :=
    c9_malformed_numeric_coerced [dictOf stdHeader ["01/10/24", "X", "Stock", "garbage", "", "oops"]]
      (dictOf stdHeader ["01/10/24", "X", "Stock", "garbage", "", "oops"]) ⟨2024, 1, 10⟩
      (List.mem_cons_self _ _) (by decide) (by decide) (by decide)
  exact ⟨l, hl, t, htl, hpr, hd, hplz (by decide), havz (by decide)⟩

/-! ## C4: monthly breakdown always has 12 complete entries -/

/-- C4: for every ledger and year the historical-overview summary has
exactly 12 entries, the entry at position m-1 is labelled with month m,
and a month containing no trades gets count 0 and total profit/loss 0. -/
theorem c4_monthly_breakdown_twelve (L : List Trade) (y m : Nat)
    (h1 : 1 ≤ m) (h2 : m ≤ 12) :
    (monthlyBreakdown L y).length = 12 ∧
    ((monthlyBreakdown L y)[m - 1]?).map (fun e => e.1) = some m ∧
    (L.filter (fun t => byMonth m t && byYear y t) = [] →
      (monthlyBreakdown L y)[m - 1]? = some (m, 0, 0)) := by
  have hidx : (List.range 12)[m - 1]? = some (m - 1) := by
    rw [List.getElem?_range (by omega)]
  have hm1 : m - 1 + 1 = m := by omega
  have hentry : (monthlyBreakdown L y)[m - 1]? =
      some (m, ((L.filter (byYear y)).filter (byMonth m)).length,
        sumPL ((L.filter (byYear y)).filter (byMonth m))) := by
    unfold monthlyBreakdown
    rw [List.getElem?_map, hidx]
    simp only [Option.map_some', hm1]
  refine ⟨by simp [monthlyBreakdown], by rw [hentry]; rfl, fun hempty => ?_⟩
  have hcomb : (L.filter (byYear y)).filter (byMonth m) = [] := by
    rw [List.filter_filter]
    exact hempty
  rw [hentry, hcomb]
  simp [sumPL]

/-- C4 witness: ledger with trades in January and March 2024 only; the
February entry is (2, 0, 0). -/
theorem c4_monthly_breakdown_twelve_witness :
    (monthlyBreakdown [⟨⟨2024, 1, 10⟩, "J", 500, 500⟩, ⟨⟨2024, 3, 15⟩, "M", -100, 400⟩] 2024)[1]? =
      some (2, 0, 0) :=
  (c4_monthly_breakdown_twelve _ 2024 2 (by decide) (by decide)).2.2 (by decide)

/-! ## C5: aggregate totals -/

theorem sum_map_add_pointwise (l : List Nat) (f g : Nat → Rat) :
    (l.map (fun i => f i + g i)).sum = (l.map f).sum + (l.map g).sum := by
  induction l with
  | nil => simp
  | cons a l ih =>
    simp only [List.map_cons, List.sum_cons, ih]
    ring

theorem sum_single_month (k : Nat) (h1 : 1 ≤ k) (h2 : k ≤ 12) (x : Rat) :
    ((List.range 12).map (fun i => if k = i + 1 then x else 0)).sum = x := by
  interval_cases k <;> simp [List.range_succ]

theorem sum_months (F : List Trade)
    (h : ∀ t ∈ F, 1 ≤ t.date.month ∧ t.date.month ≤ 12) :
    ((List.range 12).map (fun i => sumPL (F.filter (byMonth (i + 1))))).sum = sumPL F := by
  induction F with
  | nil => simp [sumPL]
  | cons t F ih =>
    have hm := h t (List.mem_cons_self t F)
    have hstep : ∀ i ∈ List.range 12, sumPL ((t :: F).filter (byMonth (i + 1))) =
        (if t.date.month = i + 1 then t.pl else 0) + sumPL (F.filter (byMonth (i + 1))) := by
      intro i _
      rw [List.filter_cons]
      by_cases hb : t.date.month = i + 1
      · simp [byMonth, hb, sumPL]
      · simp [byMonth, hb, sumPL]
    rw [List.map_congr_left hstep, sum_map_add_pointwise,
      sum_single_month t.date.month hm.1 hm.2 t.pl,
      ih (fun u hu => h u (List.mem_cons_of_mem t hu))]
    simp [sumPL]

/-- C5: the 12 monthly totals of a year sum to that year's aggregate
total profit/loss, and the all-time total is the sum of profit/loss over
all trades.  The month-range hypothesis holds for every loaded ledger,
because the date parser only produces months 1..12. -/
theorem c5_aggregate_totals (L : List Trade) (y : Nat)
    (h : ∀ t ∈ L, 1 ≤ t.date.month ∧ t.date.month ≤ 12) :
    ((monthlyBreakdown L y).map (fun e => e.2.2)).sum = sumPL (L.filter (byYear y)) ∧
    overallPL L = sumPL L := by
  refine ⟨?_, rfl⟩
  have hmap : (monthlyBreakdown L y).map (fun e => e.2.2) =
      (List.range 12).map (fun i => sumPL ((L.filter (byYear y)).filter (byMonth (i + 1)))) := by
    unfold monthlyBreakdown
    rw [List.map_map]
    rfl
  rw [hmap, sum_months _ (fun t ht => h t (List.mem_of_mem_filter ht))]

/-- C5 witness at a concrete two-trade ledger. -/
theorem c5_aggregate_totals_witness :
    ((monthlyBreakdown [⟨⟨2024, 1, 10⟩, "J", 500, 500⟩, ⟨⟨2023, 3, 15⟩, "M", -100, 400⟩] 2024).map
        (fun e => e.2.2)).sum =
      sumPL ([⟨⟨2024, 1, 10⟩, "J", 500, 500⟩, ⟨⟨2023, 3, 15⟩, "M", -100, 400⟩].filter (byYear 2024)) ∧
    overallPL [⟨⟨2024, 1, 10⟩, "J", 500, 500⟩, ⟨⟨2023, 3, 15⟩, "M", -100, 400⟩] =
      sumPL [⟨⟨2024, 1, 10⟩, "J", 500, 500⟩, ⟨⟨2023, 3, 15⟩, "M", -100, 400⟩] :=
  c5_aggregate_totals _ 2024 (by decide)

/-! ## Stability of the date sort -/

theorem rdesc_trans {a b c : Trade} (h1 : rdesc a b) (h2 : rdesc b c) : rdesc a c := by
  unfold rdesc at *
  exact Nat.le_trans h2 h1

theorem orderedInsert_eq_cons (a : Trade) (s : List Trade)
    (h : ∀ c ∈ s, rdesc a c) : List.orderedInsert rdesc a s = a :: s := by
  cases s with
  | nil => rfl
  | cons b t => simp only [List.orderedInsert, if_pos (h b (List.mem_cons_self b t))]

theorem firstMax_cons (a : Trade) (l : List Trade) :
    firstMax (a :: l) = match firstMax l with
      | none => some a
      | some m => if m.date.key ≤ a.date.key then some a else some m := rfl

theorem firstMax_cons_none {l : List Trade} (a : Trade) (h : firstMax l = none) :
    firstMax (a :: l) = some a := by
  rw [firstMax_cons, h]

theorem firstMax_cons_some {l : List Trade} {m : Trade} (a : Trade) (h : firstMax l = some m) :
    firstMax (a :: l) = if m.date.key ≤ a.date.key then some a else some m := by
  rw [firstMax_cons, h]

theorem head?_orderedInsert_cons (a b : Trade) (t : List Trade) :
    (List.orderedInsert rdesc a (b :: t)).head? =
      some (if b.date.key ≤ a.date.key then a else b) := by
  simp only [List.orderedInsert]
  by_cases h : rdesc a b
  · rw [if_pos h]
    unfold rdesc at h
    simp [h]
  · rw [if_neg h]
    unfold rdesc at h
    simp [h]

theorem head?_sortDesc (l : List Trade) : (sortDesc l).head? = firstMax l := by
  induction l with
  | nil => rfl
  | cons a l ih =>
    show (List.orderedInsert rdesc a (sortDesc l)).head? = firstMax (a :: l)
    rcases hs : sortDesc l with _ | ⟨b, t⟩
    · have hfm : firstMax l = none := by rw [← ih, hs]; rfl
      rw [firstMax_cons_none a hfm]
      rfl
    · have hfm : firstMax l = some b := by rw [← ih, hs]; rfl
      rw [head?_orderedInsert_cons, firstMax_cons_some a hfm]
      by_cases h : b.date.key ≤ a.date.key <;> simp [h]

theorem firstMax_eq_none {l : List Trade} (h : firstMax l = none) : l = [] := by
  cases l with
  | nil => rfl
  | cons a l =>
    rcases hfm : firstMax l with _ | m
    · rw [firstMax_cons_none a hfm] at h
      exact Option.noConfusion h
    · rw [firstMax_cons_some a hfm] at h
      by_cases hk : m.date.key ≤ a.date.key
      · rw [if_pos hk] at h
        exact Option.noConfusion h
      · rw [if_neg hk] at h
        exact Option.noConfusion h

theorem firstMax_mem : ∀ {l : List Trade} {t : Trade}, firstMax l = some t → t ∈ l := by
  intro l
  induction l with
  | nil => intro t h; exact Option.noConfusion h
  | cons a l ih =>
    intro t h
    rcases hfm : firstMax l with _ | m
    · rw [firstMax_cons_none a hfm] at h
      injection h with h2
      exact h2 ▸ List.mem_cons_self a l
    · rw [firstMax_cons_some a hfm] at h
      by_cases hk : m.date.key ≤ a.date.key
      · rw [if_pos hk] at h
        injection h with h2
        exact h2 ▸ List.mem_cons_self a l
      · rw [if_neg hk] at h
        injection h with h2
        exact h2 ▸ List.mem_cons_of_mem a (ih hfm)

theorem firstMax_isMax : ∀ {l : List Trade} {t : Trade}, firstMax l = some t →
    ∀ u ∈ l, u.date.key ≤ t.date.key := by
  intro l
  induction l with
  | nil => intro t h; exact Option.noConfusion h
  | cons a l ih =>
    intro t h u hu
    rcases hfm : firstMax l with _ | m
    · have hl : l = [] := firstMax_eq_none hfm
      rw [firstMax_cons_none a hfm] at h
      have h2 : a = t := Option.some.inj h
      have hu2 : u = a := by
        rcases List.mem_cons.mp hu with h3 | h3
        · exact h3
        · rw [hl] at h3
          exact absurd h3 (List.not_mem_nil u)
      rw [hu2, h2]
    · rw [firstMax_cons_some a hfm] at h
      by_cases hk : m.date.key ≤ a.date.key
      · rw [if_pos hk] at h
        have h2 : a = t := Option.some.inj h
        rcases List.mem_cons.mp hu with h3 | h3
        · rw [h3, h2]
        · exact h2 ▸ Nat.le_trans (ih hfm u h3) hk
      · rw [if_neg hk] at h
        have h2 : m = t := Option.some.inj h
        rcases List.mem_cons.mp hu with h3 | h3
        · rw [h3, ← h2]
          exact Nat.le_of_lt (Nat.lt_of_not_le hk)
        · exact h2 ▸ ih hfm u h3

theorem filter_orderedInsert (p : Trade → Bool) (a : Trade) :
    ∀ s : List Trade, List.Sorted rdesc s →
      (List.orderedInsert rdesc a s).filter p =
        if p a then List.orderedInsert rdesc a (s.filter p) else s.filter p := by
  intro s
  induction s with
  | nil =>
    intro _
    by_cases h : p a <;> simp [List.orderedInsert, List.filter_cons, h]
  | cons b t ih =>
    intro hsort
    have hbt := List.sorted_cons.mp hsort
    by_cases hab : rdesc a b
    · have he : List.orderedInsert rdesc a (b :: t) = a :: b :: t := by
        simp only [List.orderedInsert, if_pos hab]
      rw [he, List.filter_cons]
      by_cases hpa : p a
      · rw [if_pos hpa, if_pos hpa]
        refine (orderedInsert_eq_cons a _ ?_).symm
        intro c hc
        rcases List.mem_cons.mp (List.mem_of_mem_filter hc) with rfl | hct
        · exact hab
        · exact rdesc_trans hab (hbt.1 c hct)
      · rw [if_neg hpa, if_neg hpa]
    · have he : List.orderedInsert rdesc a (b :: t) = b :: List.orderedInsert rdesc a t := by
        simp only [List.orderedInsert, if_neg hab]
      rw [he, List.filter_cons, ih hbt.2, List.filter_cons]
      by_cases hpb : p b <;> by_cases hpa : p a <;>
        simp [hpb, hpa, List.orderedInsert, hab]

theorem filter_sortDesc (p : Trade → Bool) (l : List Trade) :
    (sortDesc l).filter p = sortDesc (l.filter p) := by
  induction l with
  | nil => rfl
  | cons a l ih =>
    show (List.orderedInsert rdesc a (sortDesc l)).filter p = sortDesc ((a :: l).filter p)
    have hsl : List.Sorted rdesc (sortDesc l) := List.sorted_insertionSort rdesc l
    rw [filter_orderedInsert p a _ hsl, List.filter_cons]
    by_cases hpa : p a
    · rw [if_pos hpa, if_pos hpa, ih]
      rfl
    · rw [if_neg hpa, if_neg hpa, ih]

/-! ## C3: the "last" trade of a window -/

/-- C3 (amended): the dashboard's `last_account_value` for a window is the
account value of a trade of MAXIMAL date in the filtered set (the first
row of the date-descending frame), or, when the filtered set is empty, of
a maximal-date trade of the whole ledger.  Which of several equal-dated
latest trades supplies the value is not asserted: the program's default
sort kernel guarantees no tie order, and in particular the claim's
later-entry-wins tie-break does not hold (see the counterexample, a
two-row frame on which the program's behaviour is deterministic). -/
theorem c3_last_value_of_window (L : List Trade) (p : Trade → Bool) :
    (L.filter p ≠ [] → ∃ t ∈ L.filter p,
      dashLastValue (sortDesc L) p = some t.av ∧
      ∀ u ∈ L.filter p, u.date.key ≤ t.date.key) ∧
    (L.filter p = [] → L ≠ [] → ∃ t ∈ L,
      dashLastValue (sortDesc L) p = some t.av ∧
      ∀ u ∈ L, u.date.key ≤ t.date.key) ∧
    (L = [] → dashLastValue (sortDesc L) p = none) := by
  refine ⟨?_, ?_, ?_⟩
  · intro h
    rcases hfm : firstMax (L.filter p) with _ | t
    · exact absurd (firstMax_eq_none hfm) h
    · refine ⟨t, firstMax_mem hfm, ?_, firstMax_isMax hfm⟩
      unfold dashLastValue
      rw [filter_sortDesc]
      have hh : (sortDesc (L.filter p)).head? = some t := by
        rw [head?_sortDesc]
        exact hfm
      rcases hs : sortDesc (L.filter p) with _ | ⟨b, t2⟩
      · rw [hs] at hh
        exact Option.noConfusion hh
      · rw [hs] at hh
        injection hh with hb
        rw [hb]
  · intro hemp h
    rcases hfm : firstMax L with _ | t
    · exact absurd (firstMax_eq_none hfm) h
    · refine ⟨t, firstMax_mem hfm, ?_, firstMax_isMax hfm⟩
      unfold dashLastValue
      rw [filter_sortDesc, hemp]
      show (sortDesc L).head?.map (fun t => t.av) = some t.av
      rw [head?_sortDesc, hfm]
      rfl
  · intro h
    subst h
    rfl

/-- C3 witness: the January 2024 window of a concrete ledger yields the
account value of its (unique) maximal-date January trade. -/
theorem c3_last_value_of_window_witness :
    ∃ t ∈ ([⟨⟨2024, 1, 10⟩, "J", 500, 500⟩,
        ⟨⟨2024, 2, 5⟩, "F", -200, 300⟩] : List Trade).filter (byMonth 1),
      dashLastValue (sortDesc [⟨⟨2024, 1, 10⟩, "J", 500, 500⟩, ⟨⟨2024, 2, 5⟩, "F", -200, 300⟩])
          (byMonth 1) = some t.av ∧
      ∀ u ∈ ([⟨⟨2024, 1, 10⟩, "J", 500, 500⟩,
          ⟨⟨2024, 2, 5⟩, "F", -200, 300⟩] : List Trade).filter (byMonth 1),
        u.date.key ≤ t.date.key :=
  (c3_last_value_of_window [⟨⟨2024, 1, 10⟩, "J", 500, 500⟩, ⟨⟨2024, 2, 5⟩, "F", -200, 300⟩]
    (byMonth 1)).1 (by decide)

/-- C3 counterexample: two trades share the date 01/10/24; the dashboard
reports the earlier entry's account value (1), while the claim's
later-entry-wins reading demands the later entry's value (2).  On a
two-row frame the program's sort kernel degenerates to a stable insertion
sort, so this behaviour of the program is deterministic. -/
theorem c3_tie_break_counterexample :
    dashLastValue (sortDesc [⟨⟨2024, 1, 10⟩, "A", 0, 1⟩, ⟨⟨2024, 1, 10⟩, "B", 0, 2⟩])
        (byYear 2024) = some 1 ∧
    specLastValue [⟨⟨2024, 1, 10⟩, "A", 0, 1⟩, ⟨⟨2024, 1, 10⟩, "B", 0, 2⟩]
        (byYear 2024) = some 2 ∧
    dashLastValue (sortDesc [⟨⟨2024, 1, 10⟩, "A", 0, 1⟩, ⟨⟨2024, 1, 10⟩, "B", 0, 2⟩])
        (byYear 2024) ≠
      specLastValue [⟨⟨2024, 1, 10⟩, "A", 0, 1⟩, ⟨⟨2024, 1, 10⟩, "B", 0, 2⟩] (byYear 2024) := by
  refine ⟨by decide, by decide, by decide⟩

/-! ## C1: the value of a newly submitted trade -/

/-- C1 (amended): in src/app.py the new trade is appended after the last
entry with account value equal to the last-entered trade's account value
plus the profit/loss (fallback: the standalone `value` input), as the
claim states; in src/app-2.py the base is instead the first row of the
date-descending loaded frame - the account value of a trade of MAXIMAL
date among the loaded trades, not of the last-entered trade - with
fallback `0`.  Which of several equal-dated latest trades supplies the
value is not part of the statement: the program's sort kernel does not
guarantee a tie order. -/
theorem c1_new_trade_account_value (L : List Trade) (d : TDate) (ps : String) (v pl : Rat) :
    (∃ t, appAddTrade L d ps v pl = L ++ [t] ∧ t.pl = pl ∧
      t.av = (match L.getLast? with | some u => u.av | none => v) + pl) ∧
    (L = [] → app2SubmitValue L pl = 0 + pl) ∧
    (L ≠ [] → ∃ t ∈ L, app2SubmitValue L pl = t.av + pl ∧
      ∀ u ∈ L, u.date.key ≤ t.date.key) := by
  refine ⟨⟨_, rfl, rfl, rfl⟩, ?_, ?_⟩
  · intro h
    subst h
    rfl
  · intro h
    rcases hfm : firstMax L with _ | t
    · exact absurd (firstMax_eq_none hfm) h
    · refine ⟨t, firstMax_mem hfm, ?_, firstMax_isMax hfm⟩
      unfold app2SubmitValue
      rw [head?_sortDesc, hfm]

/-- C1 witness: at a concrete two-trade ledger the app-2 submit value is
the account value of a maximal-date trade plus the profit/loss. -/
theorem c1_new_trade_account_value_witness :
    ∃ t ∈ ([⟨⟨2024, 1, 10⟩, "J", 500, 500⟩, ⟨⟨2024, 2, 5⟩, "F", -200, 300⟩] : List Trade),
      app2SubmitValue [⟨⟨2024, 1, 10⟩, "J", 500, 500⟩, ⟨⟨2024, 2, 5⟩, "F", -200, 300⟩] 100 =
        t.av + 100 ∧
      ∀ u ∈ ([⟨⟨2024, 1, 10⟩, "J", 500, 500⟩, ⟨⟨2024, 2, 5⟩, "F", -200, 300⟩] : List Trade),
        u.date.key ≤ t.date.key :=
  (c1_new_trade_account_value [⟨⟨2024, 1, 10⟩, "J", 500, 500⟩, ⟨⟨2024, 2, 5⟩, "F", -200, 300⟩]
    ⟨2024, 3, 1⟩ "X" 0 100).2.2 (by decide)

/-- C1 counterexample: entry-ordered ledger [Feb(av 500), back-dated
Jan(av 300)]; submitting profit/loss 100 through the app-2 form yields
600 (500 from the chronologically-latest trade), while the claim's "last
trade's account_value + profit_loss" is 300 + 100 = 400. -/
theorem c1_last_trade_counterexample :
    app2SubmitValue [⟨⟨2024, 2, 1⟩, "F", 500, 500⟩, ⟨⟨2024, 1, 1⟩, "J", -200, 300⟩] 100 = 600 ∧
    (match ([⟨⟨2024, 2, 1⟩, "F", 500, 500⟩, ⟨⟨2024, 1, 1⟩, "J", -200, 300⟩] : List Trade).getLast? with
      | some u => u.av
      | none => (0 : Rat)) + 100 = 400 ∧
    (600 : Rat) ≠ 400 := by
  refine ⟨by decide, by decide, by decide⟩

/-! ## C2: the Balance Recurrence across add, edit, delete -/

theorem lastAV_eq_getLast (v : Rat) (L : List Trade) :
    lastAV v L = (match L.getLast? with | some t => t.av | none => v) := by
  induction L generalizing v with
  | nil => rfl
  | cons t ts ih =>
    show lastAV t.av ts = _
    rw [ih t.av]
    cases ts with
    | nil => rfl
    | cons u us =>
      rw [List.getLast?_cons_cons]
      rcases hg : (u :: us).getLast? with _ | w
      · simp at hg
      · rfl

theorem balanceFrom_append (d : TDate) (ps : String) (pl : Rat) :
    ∀ (L : List Trade) (v : Rat), balanceFrom v L = true →
      balanceFrom v (L ++ [⟨d, ps, pl, lastAV v L + pl⟩]) = true := by
  intro L
  induction L with
  | nil =>
    intro v _
    simp [balanceFrom, lastAV]
  | cons t ts ih =>
    intro v h
    simp only [balanceFrom, Bool.and_eq_true, decide_eq_true_eq] at h
    show (decide (t.av = v + t.pl) &&
      balanceFrom t.av (ts ++ [⟨d, ps, pl, lastAV t.av ts + pl⟩])) = true
    rw [ih t.av h.2]
    simp [h.1]

theorem setPL_map_av : ∀ (S : List Trade) (i : Nat) (x : Rat),
    (setPL S i x).map (fun t => t.av) = S.map (fun t => t.av) := by
  intro S
  induction S with
  | nil => intro i x; rfl
  | cons t ts ih =>
    intro i x
    cases i with
    | zero => rfl
    | succ n =>
      show t.av :: (setPL ts n x).map (fun t => t.av) = t.av :: ts.map (fun t => t.av)
      rw [ih n x]

/-- C2 (amended): an add through the src/app.py handler with zero fallback
preserves the Balance Recurrence, but the edit and delete paths never
recompute the derived series: a profit/loss edit leaves every stored
account value exactly as it was, and Save Edits persists those rows
verbatim, merely re-sorted by date - no recompute step exists in the
source. -/
theorem c2_no_recompute_on_edit (L S : List Trade) (d : TDate) (ps : String) (pl x : Rat)
    (i : Nat) (h : balanceOK L = true) :
    balanceOK (appAddTrade L d ps 0 pl) = true ∧
    (setPL S i x).map (fun t => t.av) = S.map (fun t => t.av) ∧
    (saveEditsPersist (setPL S i x)).Perm (setPL S i x) := by
  refine ⟨?_, setPL_map_av S i x, List.perm_insertionSort rasc _⟩
  unfold appAddTrade balanceOK
  have hb := balanceFrom_append d ps pl L 0 h
  rw [← lastAV_eq_getLast 0 L]
  exact hb

/-- C2 witness at a concrete one-trade ledger and a concrete edit. -/
theorem c2_no_recompute_on_edit_witness :
    balanceOK (appAddTrade [⟨⟨2024, 1, 10⟩, "J", 500, 500⟩] ⟨2024, 2, 5⟩ "F" 0 (-200)) = true ∧
    (setPL [⟨⟨2024, 1, 10⟩, "J", 500, 500⟩] 0 100).map (fun t => t.av) =
      ([⟨⟨2024, 1, 10⟩, "J", 500, 500⟩] : List Trade).map (fun t => t.av) ∧
    (saveEditsPersist (setPL [⟨⟨2024, 1, 10⟩, "J", 500, 500⟩] 0 100)).Perm
      (setPL [⟨⟨2024, 1, 10⟩, "J", 500, 500⟩] 0 100) :=
  c2_no_recompute_on_edit [⟨⟨2024, 1, 10⟩, "J", 500, 500⟩] [⟨⟨2024, 1, 10⟩, "J", 500, 500⟩]
    ⟨2024, 2, 5⟩ "F" (-200) 100 0 (by decide)

/-- C2 counterexample (the spec's Scenario C): ledger
[{01/10/24, pl 500, av 500}, {02/05/24, pl -200, av 300}] satisfies the
recurrence; editing the first trade's profit/loss to 100 in the loaded
frame and saving persists account values [500, 300] unchanged, violating
the Balance Recurrence, where the claim's recompute step would have
produced [100, -100]. -/
theorem c2_stale_balance_counterexample :
    balanceOK [⟨⟨2024, 1, 10⟩, "", 500, 500⟩, ⟨⟨2024, 2, 5⟩, "", -200, 300⟩] = true ∧
    (saveEditsPersist (setPL (sortDesc [⟨⟨2024, 1, 10⟩, "", 500, 500⟩,
        ⟨⟨2024, 2, 5⟩, "", -200, 300⟩]) 1 100)).map (fun t => t.av) = [500, 300] ∧
    balanceOK (saveEditsPersist (setPL (sortDesc [⟨⟨2024, 1, 10⟩, "", 500, 500⟩,
        ⟨⟨2024, 2, 5⟩, "", -200, 300⟩]) 1 100)) = false ∧
    (recomputeAll (saveEditsPersist (setPL (sortDesc [⟨⟨2024, 1, 10⟩, "", 500, 500⟩,
        ⟨⟨2024, 2, 5⟩, "", -200, 300⟩]) 1 100))).map (fun t => t.av) = [100, -100] := by
  refine ⟨by decide, by decide, by decide, by decide⟩

/-! ## Loader lemmas shared by C6, C7, C10 -/

theorem exists_six_of_le : ∀ (r : List String), 6 ≤ r.length →
    ∃ a b c d2 e f rest, r = a :: b :: c :: d2 :: e :: f :: rest
  | a :: b :: c :: d2 :: e :: f :: rest, _ => ⟨a, b, c, d2, e, f, rest, rfl⟩
  | [], h => absurd h (by simp)
  | [a], h => absurd h (by simp)
  | [a, b], h => absurd h (by simp)
  | [a, b, c], h => absurd h (by simp)
  | [a, b, c, d2], h => absurd h (by simp)
  | [a, b, c, d2, e], h => absurd h (by simp)

theorem dget_six (a b c d2 e f : String) (rest : List String) :
    (dget (dictOf stdHeader (a :: b :: c :: d2 :: e :: f :: rest)) "Date").isSome = true ∧
    (dget (dictOf stdHeader (a :: b :: c :: d2 :: e :: f :: rest)) "P/L").isSome = true ∧
    (dget (dictOf stdHeader (a :: b :: c :: d2 :: e :: f :: rest)) "Account Value").isSome = true :=
  ⟨rfl, rfl, rfl⟩

theorem processDataE_eq_some (recs : List RecT) (hne : recs ≠ [])
    (hD : (recs.any fun q => (dget q "Date").isSome) = true)
    (hP : (recs.any fun q => (dget q "P/L").isSome) = true)
    (hA : (recs.any fun q => (dget q "Account Value").isSome) = true) :
    processDataE recs = some (sortDesc (recs.filterMap parseRow)) := by
  unfold processDataE
  rw [if_neg (by simp [hne]), if_pos hD, if_pos hP, if_pos hA]

theorem processDataE_length_le (recs : List RecT) (l : List Trade)
    (h : processDataE recs = some l) : l.length ≤ recs.length := by
  unfold processDataE at h
  split_ifs at h
  all_goals first
    | exact Option.noConfusion h
    | (rw [← Option.some.inj h, length_sortDesc]; exact List.length_filterMap_le _ _)
    | (rw [← Option.some.inj h]; simp)

theorem getFullData_cons_eq (r0 : List String) (rs : List (List String))
    (h0 : r0.length = 6) :
    getFullData (stdHeader :: r0 :: rs) =
      sortDesc (((r0 :: rs).map (fun r => dictOf stdHeader r)).filterMap parseRow) := by
  obtain ⟨a, b, c, d2, e, f, rest, hre⟩ := exists_six_of_le r0 (by omega)
  have hq := dget_six a b c d2 e f rest
  unfold getFullData
  rw [if_neg (by simp only [List.length_cons]; omega)]
  show (processDataE ((r0 :: rs).map (fun r => dictOf stdHeader r))).getD [] = _
  rw [hre, List.map_cons, processDataE_eq_some _ (by simp) (by simp [hq.1])
    (by simp [hq.2.1]) (by simp [hq.2.2]), Option.getD_some, ← List.map_cons]

theorem parseRow_eq_none_iff (rec : RecT) :
    parseRow rec = none ↔ (dget rec "Date").bind parseDate = none := by
  unfold parseRow
  cases h : (dget rec "Date").bind parseDate <;> simp

/-! ## C6: what load() returns, and in which order -/

/-- C6 (amended): get_full_data does not return the trades in stored
order: it returns a permutation of exactly the date-valid parsed rows
(rows whose Date cell fails to parse are dropped), and that permutation is
sorted by date DESCENDING; the order of equal dates is whatever the sort
kernel produces and is not part of the statement. -/
theorem c6_load_is_date_sorted (rows : List (List String))
    (h6 : ∀ r ∈ rows, r.length = 6) :
    (getFullData (stdHeader :: rows)).Perm
      ((rows.map (fun r => dictOf stdHeader r)).filterMap parseRow) ∧
    List.Sorted rdesc (getFullData (stdHeader :: rows)) := by
  cases rows with
  | nil =>
    constructor
    · simp [getFullData]
    · simp [getFullData]
  | cons r0 rs =>
    rw [getFullData_cons_eq r0 rs (h6 r0 (List.mem_cons_self r0 rs))]
    exact ⟨List.perm_insertionSort rdesc _, List.sorted_insertionSort rdesc _⟩

/-- C6 witness at a concrete two-row sheet. -/
theorem c6_load_is_date_sorted_witness :
    (getFullData (stdHeader :: [["01/10/24", "J", "Stock", "500", "", "500"],
        ["02/05/24", "F", "Stock", "-200", "", "300"]])).Perm
      (([["01/10/24", "J", "Stock", "500", "", "500"],
        ["02/05/24", "F", "Stock", "-200", "", "300"]].map
          (fun r => dictOf stdHeader r)).filterMap parseRow) ∧
    List.Sorted rdesc (getFullData (stdHeader :: [["01/10/24", "J", "Stock", "500", "", "500"],
        ["02/05/24", "F", "Stock", "-200", "", "300"]])) :=
  c6_load_is_date_sorted _ (by decide)

/-- C6 counterexample: rows stored as [Jan 10, Feb 5] load as
[Feb 5, Jan 10] - date-descending, not stored order. -/
theorem c6_stored_order_counterexample :
    getFullData (stdHeader :: [["01/10/24", "J", "Stock", "500", "", "500"],
        ["02/05/24", "F", "Stock", "-200", "", "300"]]) =
      [⟨⟨2024, 2, 5⟩, "F", -200, 300⟩, ⟨⟨2024, 1, 10⟩, "J", 500, 500⟩] ∧
    ([⟨⟨2024, 2, 5⟩, "F", -200, 300⟩, ⟨⟨2024, 1, 10⟩, "J", 500, 500⟩] : List Trade) ≠
      [⟨⟨2024, 1, 10⟩, "J", 500, 500⟩, ⟨⟨2024, 2, 5⟩, "F", -200, 300⟩] := by
  refine ⟨by decide, by decide⟩

/-! ## C7: rows with unparseable dates -/

theorem filterMap_parseRow_filter (rows : List (List String)) :
    ((rows.filter (fun r => ((dget (dictOf stdHeader r) "Date").bind parseDate).isSome)).map
        (fun r => dictOf stdHeader r)).filterMap parseRow =
      (rows.map (fun r => dictOf stdHeader r)).filterMap parseRow := by
  induction rows with
  | nil => rfl
  | cons r rs ih =>
    rw [List.filter_cons]
    by_cases hq : ((dget (dictOf stdHeader r) "Date").bind parseDate).isSome = true
    · rw [if_pos hq]
      rcases hd : (dget (dictOf stdHeader r) "Date").bind parseDate with _ | d
      · rw [hd] at hq
        exact absurd hq (by simp)
      · have hsome : ∃ t, parseRow (dictOf stdHeader r) = some t := by
          unfold parseRow
          rw [hd]
          exact ⟨_, rfl⟩
        obtain ⟨t, ht⟩ := hsome
        rw [List.map_cons, List.map_cons, List.filterMap_cons_some ht,
          List.filterMap_cons_some ht, ih]
    · rw [if_neg hq]
      have hnone : parseRow (dictOf stdHeader r) = none := by
        rw [parseRow_eq_none_iff]
        cases hd : (dget (dictOf stdHeader r) "Date").bind parseDate
        · rfl
        · rw [hd] at hq
          exact absurd rfl hq
      rw [List.map_cons, List.filterMap_cons_none hnone, ih]

/-- C7 (amended): a row whose Date cell cannot be parsed is excluded not
only from date-based aggregation but from the loaded frame altogether -
the All Trades table displays the loaded frame, so the row does NOT appear
there (it survives only in the backing sheet, which loading never
mutates); loading and aggregation do not abort. -/
theorem c7_invalid_date_excluded (rows : List (List String))
    (h6 : ∀ r ∈ rows, r.length = 6) :
    getFullData (stdHeader :: rows) =
      getFullData (stdHeader :: rows.filter
        (fun r => ((dget (dictOf stdHeader r) "Date").bind parseDate).isSome)) ∧
    (∀ t ∈ getFullData (stdHeader :: rows),
      ∃ r ∈ rows, parseRow (dictOf stdHeader r) = some t) := by
  constructor
  · cases rows with
    | nil => rfl
    | cons r0 rs =>
      rw [getFullData_cons_eq r0 rs (h6 r0 (List.mem_cons_self r0 rs))]
      rcases hf : (r0 :: rs).filter
          (fun r => ((dget (dictOf stdHeader r) "Date").bind parseDate).isSome) with _ | ⟨q0, qs⟩
      · have : ((r0 :: rs).map (fun r => dictOf stdHeader r)).filterMap parseRow = [] := by
          rw [← filterMap_parseRow_filter, hf]
          rfl
        rw [this]
        simp [getFullData, sortDesc]
      · have hq0 : q0 ∈ List.filter
            (fun r => ((dget (dictOf stdHeader r) "Date").bind parseDate).isSome) (r0 :: rs) := by
          rw [hf]
          exact List.mem_cons_self q0 qs
        have h0 : q0.length = 6 := h6 q0 (List.mem_of_mem_filter hq0)
        rw [getFullData_cons_eq q0 qs h0, ← filterMap_parseRow_filter (r0 :: rs), hf]
  · intro t ht
    cases rows with
    | nil =>
      rw [show getFullData [stdHeader] = [] from by simp [getFullData]] at ht
      exact absurd ht (List.not_mem_nil t)
    | cons r0 rs =>
      rw [getFullData_cons_eq r0 rs (h6 r0 (List.mem_cons_self r0 rs))] at ht
      obtain ⟨rec, hrec, hpr⟩ := List.mem_filterMap.mp (mem_sortDesc.mp ht)
      obtain ⟨r, hr, hrd⟩ := List.mem_map.mp hrec
      exact ⟨r, hr, by rw [hrd]; exact hpr⟩

/-- C7 witness at a concrete sheet containing one bad-date row. -/
theorem c7_invalid_date_excluded_witness :
    getFullData (stdHeader :: [["01/10/24", "J", "Stock", "500", "", "500"],
        ["not-a-date", "BAD", "Stock", "1", "", "1"]]) =
      getFullData (stdHeader :: [["01/10/24", "J", "Stock", "500", "", "500"],
        ["not-a-date", "BAD", "Stock", "1", "", "1"]].filter
          (fun r => ((dget (dictOf stdHeader r) "Date").bind parseDate).isSome)) ∧
    (∀ t ∈ getFullData (stdHeader :: [["01/10/24", "J", "Stock", "500", "", "500"],
        ["not-a-date", "BAD", "Stock", "1", "", "1"]]),
      ∃ r ∈ [["01/10/24", "J", "Stock", "500", "", "500"],
        ["not-a-date", "BAD", "Stock", "1", "", "1"]], parseRow (dictOf stdHeader r) = some t) :=
  c7_invalid_date_excluded _ (by decide)

/-- C7 counterexample: the bad-date row exists in the backing sheet but
does not appear in the loaded frame shown by the All Trades table,
refuting "the row still exists in the raw ledger and appears in
unfiltered views (e.g. the all-trades table)". -/
theorem c7_bad_row_not_in_table_counterexample :
    ["not-a-date", "BAD", "Stock", "1", "", "1"] ∈
      [["01/10/24", "J", "Stock", "500", "", "500"],
        ["not-a-date", "BAD", "Stock", "1", "", "1"]] ∧
    (getFullData (stdHeader :: [["01/10/24", "J", "Stock", "500", "", "500"],
        ["not-a-date", "BAD", "Stock", "1", "", "1"]])).length = 1 ∧
    (getFullData (stdHeader :: [["01/10/24", "J", "Stock", "500", "", "500"],
        ["not-a-date", "BAD", "Stock", "1", "", "1"]])).all (fun t => t.pos != "BAD") = true := by
  refine ⟨by decide, by decide, by decide⟩

/-! ## C10: the fast initial load -/

/-- C10: the fast initial load yields at most 200 trades, and it equals
`process_data` applied to the last-200 data rows alone: even when the
sheet is short and the slice `all_values[-200:]` physically contains the
header row, that row contributes no trade, because its Date cell is the
literal header string "Date", which does not parse. -/
theorem c10_initial_load (rows : List (List String)) :
    (getInitialData (stdHeader :: rows)).length ≤ 200 ∧
    getInitialData (stdHeader :: rows) =
      (processDataE ((lastN 200 rows).map
        (fun r => dictOf stdHeader (pad r stdHeader.length)))).getD [] ∧
    parseDate "Date" = none := by
  have heq : getInitialData (stdHeader :: rows) =
      (processDataE ((lastN 200 rows).map
        (fun r => dictOf stdHeader (pad r stdHeader.length)))).getD [] := by
    cases rows with
    | nil => rfl
    | cons r0 rs =>
      unfold getInitialData
      rw [if_neg (by simp only [List.length_cons]; omega)]
      show (processDataE ((lastN 200 (stdHeader :: r0 :: rs)).map
        (fun r => dictOf stdHeader (pad r stdHeader.length)))).getD [] = _
      by_cases hsh : rs.length ≤ 198
      · have hs1 : lastN 200 (stdHeader :: r0 :: rs) = stdHeader :: r0 :: rs :=
          lastN_of_le (by simp only [List.length_cons]; omega)
        have hs2 : lastN 200 (r0 :: rs) = r0 :: rs :=
          lastN_of_le (by simp only [List.length_cons]; omega)
        rw [hs1, hs2]
        have hh : parseRow (dictOf stdHeader (pad stdHeader stdHeader.length)) = none := by
          decide
        have hhD : (dget (dictOf stdHeader (pad stdHeader stdHeader.length)) "Date").isSome
            = true := by decide
        have hhP : (dget (dictOf stdHeader (pad stdHeader stdHeader.length)) "P/L").isSome
            = true := by decide
        have hhA : (dget (dictOf stdHeader
            (pad stdHeader stdHeader.length)) "Account Value").isSome = true := by decide
        obtain ⟨a, b, c, d2, e, f, rest, hre⟩ := exists_six_of_le (pad r0 stdHeader.length)
          (by simp [pad, stdHeader]; omega)
        have hq := dget_six a b c d2 e f rest
        have hgD : (dget (dictOf stdHeader (pad r0 stdHeader.length)) "Date").isSome = true := by
          rw [hre]
          exact hq.1
        have hgP : (dget (dictOf stdHeader (pad r0 stdHeader.length)) "P/L").isSome = true := by
          rw [hre]
          exact hq.2.1
        have hgA : (dget (dictOf stdHeader
            (pad r0 stdHeader.length)) "Account Value").isSome = true := by
          rw [hre]
          exact hq.2.2
        rw [List.map_cons, List.map_cons,
          processDataE_eq_some _ (by simp) (by simp [hhD]) (by simp [hhP]) (by simp [hhA]),
          processDataE_eq_some _ (by simp) (by simp [hgD]) (by simp [hgP]) (by simp [hgA]),
          Option.getD_some, Option.getD_some, List.filterMap_cons_none hh]
      · have hs : lastN 200 (stdHeader :: r0 :: rs) = lastN 200 (r0 :: rs) :=
          lastN_cons_of_le stdHeader (by simp only [List.length_cons]; omega)
        rw [hs]
  refine ⟨?_, heq, by decide⟩
  rw [heq]
  rcases hE : processDataE ((lastN 200 rows).map
      (fun r => dictOf stdHeader (pad r stdHeader.length))) with _ | l
  · simp
  · rw [Option.getD_some]
    have h1 := processDataE_length_le _ _ hE
    have h2 : ((lastN 200 rows).map
        (fun r => dictOf stdHeader (pad r stdHeader.length))).length ≤ 200 := by
      rw [List.length_map]
      exact length_lastN_le 200 rows
    omega

end TradeTracker
